import Mathlib

set_option autoImplicit false

namespace GinLogger

/-- Severity levels of the underlying engine (zapcore.Level), an ordered enum
embedded as integers: debug is -1, info 0, warn 1, error 2, dpanic 3,
panic 4, fatal 5. -/
abbrev Level := Int

def debugLevel : Int := -1

def infoLevel : Int := 0

def warnLevel : Int := 1

def errorLevel : Int := 2

def dpanicLevel : Int := 3

def panicLevel : Int := 4

def fatalLevel : Int := 5

/-- Enumeration of the seven severities of the enum, in order. -/
def levelEnum : List Int :=
  [debugLevel, infoLevel, warnLevel, errorLevel, dpanicLevel, panicLevel, fatalLevel]

/-- Byte-stream destinations (io.Writer values) usable as sinks. -/
inductive Writer where
  | stdout
  | stderr
  | named (path : String)
  deriving DecidableEq, Repr

/-- Values carried by log fields (interface values in Go), modelled as a small
closed universe; the merge logic never inspects values. -/
inductive Val where
  | str (s : String)
  | int (n : Int)
  deriving DecidableEq, Repr

/-- Translation of zap.Field: a keyed value attached to a record. -/
structure Field where
  Key : String
  val : Val
  deriving DecidableEq, Repr

/-- Translation of zap.String: builds a string-valued field. -/
def zapString (k : String) (s : String) : Field := ⟨k, Val.str s⟩

/-- Translation of zap.Reflect: wraps an arbitrary value under the given key. -/
def zapReflect (k : String) (v : Val) : Field := ⟨k, v⟩

/-- Config is used to parse the configuration file; the logger itself is
controlled with Options (source lines 17-21). -/
structure Config where
  InfoFile : String
  ErrorFile : String
  Level : String
  deriving DecidableEq, Repr

/-- Options: the configuration builder consumed by NewLogger (source lines 29-36). -/
structure Options where
  level : String
  callSkip : Int
  module : String
  serviceName : String
  infoWriter : Writer
  errorWriter : Writer
  deriving DecidableEq, Repr

/-- Translation of defaultOptions (source lines 40-49). -/
def defaultOptions : Options :=
  { level := "info"
    callSkip := 1
    module := "default"
    serviceName := "default"
    infoWriter := Writer.stdout
    errorWriter := Writer.stdout }

def WithCallerSkip (skip : Int) : Options → Options :=
  fun o => { o with callSkip := skip }

def WithModule (module : String) : Options → Options :=
  fun o => { o with module := module }

def WithServiceName (serviceName : String) : Options → Options :=
  fun o => { o with serviceName := serviceName }

def WithInfoWriter (w : Writer) : Options → Options :=
  fun o => { o with infoWriter := w }

def WithErrorWriter (w : Writer) : Options → Options :=
  fun o => { o with errorWriter := w }

def WithLevel (l : String) : Options → Options :=
  fun o => { o with level := l }

/-- Modelled from the spec: the field-name constant Module used at source
line 102 is declared elsewhere in the repository; the spec's output record
shape names this field "module". -/
def Module : String := "module"

/-- Modelled from the spec: the field-name constant SericeName (sic) used at
source line 103 is declared elsewhere in the repository; the spec's output
record shape names this field "serviceName". -/
def SericeName : String := "serviceName"

/-- Translation of zapLevel (source lines 157-176): parses a level string
into the severity enum, or fails carrying the offending string. -/
def zapLevel (level : String) : Except String Int :=
  match level with
  | "debug" | "DEBUG" => Except.ok debugLevel
  | "info" | "INFO" | "" => Except.ok infoLevel
  | "warn" | "WARN" => Except.ok warnLevel
  | "error" | "ERROR" => Except.ok errorLevel
  | "dpanic" | "DPANIC" => Except.ok dpanicLevel
  | "panic" | "PANIC" => Except.ok panicLevel
  | "fatal" | "FATAL" => Except.ok fatalLevel
  | other => Except.error ("error level:" ++ other)

/-- State of the underlying zap engine assembled by NewLogger: the two sink
writers of the tee, the caller-skip depth, and the fixed fields stamped on
every record (source lines 96-111). -/
structure ZapEngine where
  infoSink : Writer
  errorSink : Writer
  callerSkip : Int
  fixedFields : List Field
  deriving DecidableEq, Repr

/-- Translation of the Logger struct (source lines 23-27): the embedded
engine, the options it was built from, and the parsed threshold. -/
structure Logger where
  engine : ZapEngine
  opts : Options
  level : Int
  deriving DecidableEq, Repr

/-- Application of the option closures, in call order, to the defaults
(source lines 76-79). -/
def effectiveOptions (options : List (Options → Options)) : Options :=
  options.foldl (fun o f => f o) defaultOptions

/-- Translation of NewLogger (source lines 75-114). The Config argument is
accepted but never read: the sink, level, module and service wiring comes
entirely from the options. -/
def NewLogger (_cfg : Config) (options : List (Options → Options)) : Except String Logger :=
  let opts := effectiveOptions options
  match zapLevel opts.level with
  | Except.error e => Except.error e
  | Except.ok level =>
      Except.ok
        { level := level
          opts := opts
          engine :=
            { infoSink := opts.infoWriter
              errorSink := opts.errorWriter
              callerSkip := opts.callSkip
              fixedFields :=
                [zapString Module opts.module, zapString SericeName opts.serviceName] } }

/-- Translation of infoEnabler (source lines 116-123). -/
def Logger.infoEnabler (l : Logger) (lvl : Int) : Bool :=
  if lvl < l.level then false
  else decide (lvl ≤ infoLevel)

/-- Translation of errorEnabler (source lines 125-132). -/
def Logger.errorEnabler (l : Logger) (lvl : Int) : Bool :=
  if lvl < l.level then false
  else decide (warnLevel ≤ lvl)

/-- Translation of GetLevel (source lines 153-155). -/
def Logger.GetLevel (l : Logger) : Int := l.level

/-- Translation of the EncodeDuration closure of formatEncoder (source lines
147-149): a duration of d nanoseconds is encoded as int64(d) / 1000000; Go
division on int64 truncates toward zero, which is Int.tdiv. -/
def encodeDuration (d : Int) : Int := Int.tdiv d 1000000

/-- Failure value of the context-to-field-map conversion. -/
inductive ConvErr where
  | convErr (msg : String)
  deriving DecidableEq, Repr

/-- Modelled from the spec: ValueHTTPFields and conversion.StructToMap
(source line 199) live outside these sources; a request context is modelled
by the outcome of converting its HTTP fields into a map from field name to
value — either a field map, or a conversion failure, in which case the Go
call yields a nil map alongside the discarded error. -/
abbrev Context := Except ConvErr (List (String × Val))

/-- Insertion into a Go map modelled as an association list: an existing
binding of the same key is replaced in place, a new key is appended. -/
def mapInsert (m : List Field) (f : Field) : List Field :=
  match m with
  | [] => [f]
  | g :: gs => if g.Key = f.Key then f :: gs else g :: mapInsert gs f

/-- Translation of extractFields (source lines 198-215): the contextual
field map is rebuilt with zap.Reflect values, then the explicit call-site
fields are written over it; a conversion error is discarded. -/
def Logger.extractFields (_l : Logger) (ctx : Context) (fields : List Field) : List Field :=
  let fieldsMap : List (String × Val) :=
    match ctx with
    | Except.ok m => m
    | Except.error _ => []
  let target := fieldsMap.foldl (fun t kv => mapInsert t (zapReflect kv.1 kv.2)) []
  fields.foldl mapInsert target

/-- Log record handed to the engine by a per-call method: message, severity
and the merged field list (the engine appends the fixed fields itself). -/
structure Record where
  msg : String
  sev : Int
  fields : List Field
  deriving DecidableEq, Repr

/-- Translation of Debug (source lines 178-180). -/
def Logger.Debug (l : Logger) (ctx : Context) (msg : String) (fields : List Field) : Record :=
  { msg := msg, sev := debugLevel, fields := l.extractFields ctx fields }

/-- Translation of Info (source lines 182-184). -/
def Logger.Info (l : Logger) (ctx : Context) (msg : String) (fields : List Field) : Record :=
  { msg := msg, sev := infoLevel, fields := l.extractFields ctx fields }

/-- Translation of Warn (source lines 186-188). -/
def Logger.Warn (l : Logger) (ctx : Context) (msg : String) (fields : List Field) : Record :=
  { msg := msg, sev := warnLevel, fields := l.extractFields ctx fields }

/-- Translation of Error (source lines 190-192). -/
def Logger.Error (l : Logger) (ctx : Context) (msg : String) (fields : List Field) : Record :=
  { msg := msg, sev := errorLevel, fields := l.extractFields ctx fields }

/-- Translation of Fatal (source lines 194-196). -/
def Logger.Fatal (l : Logger) (ctx : Context) (msg : String) (fields : List Field) : Record :=
  { msg := msg, sev := fatalLevel, fields := l.extractFields ctx fields }

/-- Lookup of a key in a field list; in a list built by mapInsert keys are
unique, so the first binding is the binding. -/
def lookupField (m : List Field) (k : String) : Option Field :=
  match m with
  | [] => none
  | f :: fs => if f.Key = k then some f else lookupField fs k

/-- Rightmost field with the given key, folded from a starting accumulator. -/
def lastWithKeyFrom (fields : List Field) (k : String) (init : Option Field) : Option Field :=
  fields.foldl (fun acc f => if f.Key = k then some f else acc) init

/-- Rightmost field with the given key in a list of call-site fields. -/
def lastWithKey (fields : List Field) (k : String) : Option Field :=
  lastWithKeyFrom fields k none

/-- Rightmost binding of a key in a contextual field map, wrapped as the
zap.Reflect field the merge would build, folded from an accumulator. -/
def ctxFieldLookupFrom (ctxMap : List (String × Val)) (k : String) (init : Option Field) :
    Option Field :=
  ctxMap.foldl (fun acc kv => if kv.1 = k then some (zapReflect kv.1 kv.2) else acc) init

/-- Rightmost binding of a key in a contextual field map, as a field. -/
def ctxFieldLookup (ctxMap : List (String × Val)) (k : String) : Option Field :=
  ctxFieldLookupFrom ctxMap k none

/-- Distinctness of field names in a field list. -/
def KeysDistinct (m : List Field) : Prop :=
  m.Pairwise (fun f g => f.Key ≠ g.Key)

/-- Tagged forms of the six option constructors, used to state which
configuration field each option writes. -/
inductive OptionTag where
  | callerSkip (skip : Int)
  | module (m : String)
  | serviceName (s : String)
  | infoWriter (w : Writer)
  | errorWriter (w : Writer)
  | level (l : String)
  deriving DecidableEq, Repr

/-- Interpretation of a tag as the option closure it names. -/
def OptionTag.toOption : OptionTag → (Options → Options)
  | OptionTag.callerSkip n => WithCallerSkip n
  | OptionTag.module s => WithModule s
  | OptionTag.serviceName s => WithServiceName s
  | OptionTag.infoWriter w => WithInfoWriter w
  | OptionTag.errorWriter w => WithErrorWriter w
  | OptionTag.level s => WithLevel s

def OptionTag.setsLevel : OptionTag → Option String
  | OptionTag.level s => some s
  | _ => none

def OptionTag.setsCallSkip : OptionTag → Option Int
  | OptionTag.callerSkip n => some n
  | _ => none

def OptionTag.setsModule : OptionTag → Option String
  | OptionTag.module s => some s
  | _ => none

def OptionTag.setsServiceName : OptionTag → Option String
  | OptionTag.serviceName s => some s
  | _ => none

def OptionTag.setsInfoWriter : OptionTag → Option Writer
  | OptionTag.infoWriter w => some w
  | _ => none

def OptionTag.setsErrorWriter : OptionTag → Option Writer
  | OptionTag.errorWriter w => some w
  | _ => none

/-- Value left in a configuration field by the last tag writing it, or the
default when no tag writes it. -/
def lastVal {α : Type} (f : OptionTag → Option α) (tags : List OptionTag) (d : α) : α :=
  tags.foldl (fun acc t => (f t).getD acc) d

/-- Table of recognized level tokens with the severity each one names. -/
def levelTokenTable : List (String × Int) :=
  [("debug", debugLevel), ("DEBUG", debugLevel),
   ("info", infoLevel), ("INFO", infoLevel), ("", infoLevel),
   ("warn", warnLevel), ("WARN", warnLevel),
   ("error", errorLevel), ("ERROR", errorLevel),
   ("dpanic", dpanicLevel), ("DPANIC", dpanicLevel),
   ("panic", panicLevel), ("PANIC", panicLevel),
   ("fatal", fatalLevel), ("FATAL", fatalLevel)]

/-- Level tokens the parser recognizes. -/
def recognizedTokens : List String :=
  ["debug", "DEBUG", "info", "INFO", "", "warn", "WARN", "error", "ERROR",
   "dpanic", "DPANIC", "panic", "PANIC", "fatal", "FATAL"]

/-- Sample configuration used by concrete witnesses. -/
def cfg0 : Config := { InfoFile := "", ErrorFile := "", Level := "" }

/-- Sample logger with threshold info, as built from the defaults. -/
def l0 : Logger :=
  { engine :=
      { infoSink := Writer.stdout
        errorSink := Writer.stdout
        callerSkip := 1
        fixedFields := [zapString Module "default", zapString SericeName "default"] }
    opts := defaultOptions
    level := infoLevel }

/-- Sample context whose conversion succeeds with one contextual field. -/
def ctx0 : Context := Except.ok [("requestId", Val.str "A")]

/-- Sample call-site field list with a duplicated key. -/
def fieldsDup : List Field := [zapString "a" "1", zapString "b" "2", zapString "a" "3"]


theorem lookupField_mapInsert (m : List Field) (f : Field) (k : String) :
    lookupField (mapInsert m f) k = if f.Key = k then some f else lookupField m k := by
  induction m with
  | nil => rfl
  | cons g gs ih =>
      simp only [mapInsert, lookupField]
      by_cases hgf : g.Key = f.Key
      · rw [if_pos hgf]
        simp only [lookupField]
        by_cases hfk : f.Key = k
        · rw [if_pos hfk, if_pos hfk]
        · have hgk : ¬ g.Key = k := by rw [hgf]; exact hfk
          rw [if_neg hfk, if_neg hfk, if_neg hgk]
      · rw [if_neg hgf]
        simp only [lookupField]
        by_cases hgk : g.Key = k
        · have hfk : ¬ f.Key = k := by
            intro h
            exact hgf (hgk.trans h.symm)
          rw [if_pos hgk, if_neg hfk, if_pos hgk]
        · rw [if_neg hgk, if_neg hgk, ih]

theorem lookupField_foldl_mapInsert (fields : List Field) (t : List Field) (k : String) :
    lookupField (List.foldl mapInsert t fields) k = lastWithKeyFrom fields k (lookupField t k) := by
  induction fields generalizing t with
  | nil => rfl
  | cons f fs ih =>
      show lookupField (List.foldl mapInsert (mapInsert t f) fs) k = _
      rw [ih, lookupField_mapInsert]
      rfl

theorem lastWithKeyFrom_eq_orElse (fields : List Field) (k : String) (init : Option Field) :
    lastWithKeyFrom fields k init = Option.orElse (lastWithKey fields k) (fun _ => init) := by
  induction fields generalizing init with
  | nil => rfl
  | cons f fs ih =>
      show lastWithKeyFrom fs k (if f.Key = k then some f else init) = _
      rw [ih]
      by_cases hfk : f.Key = k
      · have h2 : lastWithKey (f :: fs) k = lastWithKeyFrom fs k (some f) := by
          simp [lastWithKey, lastWithKeyFrom, List.foldl, hfk]
        rw [h2, ih]
        cases lastWithKey fs k <;> simp [hfk, Option.orElse]
      · have h2 : lastWithKey (f :: fs) k = lastWithKey fs k := by
          simp [lastWithKey, lastWithKeyFrom, List.foldl, hfk]
        rw [h2]
        cases lastWithKey fs k <;> simp [hfk, Option.orElse]

theorem lookupField_ctxFold (ctxMap : List (String × Val)) (t : List Field) (k : String) :
    lookupField (ctxMap.foldl (fun t kv => mapInsert t (zapReflect kv.1 kv.2)) t) k =
      ctxFieldLookupFrom ctxMap k (lookupField t k) := by
  induction ctxMap generalizing t with
  | nil => rfl
  | cons kv kvs ih =>
      show lookupField (List.foldl _ (mapInsert t (zapReflect kv.1 kv.2)) kvs) k = _
      rw [ih, lookupField_mapInsert]
      rfl

theorem ctxFieldLookupFrom_eq_orElse (ctxMap : List (String × Val)) (k : String)
    (init : Option Field) :
    ctxFieldLookupFrom ctxMap k init = Option.orElse (ctxFieldLookup ctxMap k) (fun _ => init) := by
  induction ctxMap generalizing init with
  | nil => rfl
  | cons kv kvs ih =>
      show ctxFieldLookupFrom kvs k (if kv.1 = k then some (zapReflect kv.1 kv.2) else init) = _
      rw [ih]
      by_cases hk : kv.1 = k
      · have h2 : ctxFieldLookup (kv :: kvs) k =
            ctxFieldLookupFrom kvs k (some (zapReflect kv.1 kv.2)) := by
          simp [ctxFieldLookup, ctxFieldLookupFrom, List.foldl, hk]
        rw [h2, ih]
        cases ctxFieldLookup kvs k <;> simp [hk, Option.orElse]
      · have h2 : ctxFieldLookup (kv :: kvs) k = ctxFieldLookup kvs k := by
          simp [ctxFieldLookup, ctxFieldLookupFrom, List.foldl, hk]
        rw [h2]
        cases ctxFieldLookup kvs k <;> simp [hk, Option.orElse]

theorem extractFields_ok_lookup (l : Logger) (ctxMap : List (String × Val))
    (fields : List Field) (k : String) :
    lookupField (l.extractFields (Except.ok ctxMap) fields) k =
      Option.orElse (lastWithKey fields k) (fun _ => ctxFieldLookup ctxMap k) := by
  show lookupField
      (fields.foldl mapInsert (ctxMap.foldl (fun t kv => mapInsert t (zapReflect kv.1 kv.2)) [])) k = _
  rw [lookupField_foldl_mapInsert, lookupField_ctxFold, lastWithKeyFrom_eq_orElse]
  have h0 : lookupField [] k = none := rfl
  rw [h0]
  have h1 : ctxFieldLookupFrom ctxMap k none = ctxFieldLookup ctxMap k := rfl
  rw [h1]

theorem mem_mapInsert (m : List Field) (f h : Field) (hm : h ∈ mapInsert m f) :
    h = f ∨ h ∈ m := by
  induction m with
  | nil =>
      simp only [mapInsert, List.mem_singleton] at hm
      exact Or.inl hm
  | cons g gs ih =>
      simp only [mapInsert] at hm
      by_cases hgf : g.Key = f.Key
      · rw [if_pos hgf] at hm
        rcases List.mem_cons.mp hm with h1 | h1
        · exact Or.inl h1
        · exact Or.inr (List.mem_cons_of_mem g h1)
      · rw [if_neg hgf] at hm
        rcases List.mem_cons.mp hm with h1 | h1
        · exact Or.inr (h1 ▸ List.mem_cons_self g gs)
        · rcases ih h1 with h2 | h2
          · exact Or.inl h2
          · exact Or.inr (List.mem_cons_of_mem g h2)

theorem keysDistinct_mapInsert (m : List Field) (f : Field) (hm : KeysDistinct m) :
    KeysDistinct (mapInsert m f) := by
  induction m with
  | nil => simp [mapInsert, KeysDistinct]
  | cons g gs ih =>
      rw [KeysDistinct, List.pairwise_cons] at hm
      obtain ⟨hg, hgs⟩ := hm
      simp only [mapInsert]
      by_cases hgf : g.Key = f.Key
      · rw [if_pos hgf, KeysDistinct, List.pairwise_cons]
        refine ⟨fun h hh => ?_, hgs⟩
        rw [← hgf]
        exact hg h hh
      · rw [if_neg hgf, KeysDistinct, List.pairwise_cons]
        refine ⟨fun h hh => ?_, ih hgs⟩
        rcases mem_mapInsert gs f h hh with h1 | h1
        · rw [h1]; exact hgf
        · exact hg h h1

theorem keysDistinct_foldl_mapInsert (fields : List Field) (t : List Field)
    (ht : KeysDistinct t) : KeysDistinct (List.foldl mapInsert t fields) := by
  induction fields generalizing t with
  | nil => exact ht
  | cons f fs ih => exact ih (mapInsert t f) (keysDistinct_mapInsert t f ht)

theorem keysDistinct_ctxFold (ctxMap : List (String × Val)) (t : List Field)
    (ht : KeysDistinct t) :
    KeysDistinct (ctxMap.foldl (fun t kv => mapInsert t (zapReflect kv.1 kv.2)) t) := by
  induction ctxMap generalizing t with
  | nil => exact ht
  | cons kv kvs ih => exact ih _ (keysDistinct_mapInsert t _ ht)

theorem keysDistinct_extractFields (l : Logger) (ctx : Context) (fields : List Field) :
    KeysDistinct (l.extractFields ctx fields) := by
  cases ctx with
  | ok m =>
      exact keysDistinct_foldl_mapInsert fields _
        (keysDistinct_ctxFold m [] List.Pairwise.nil)
  | error e =>
      exact keysDistinct_foldl_mapInsert fields _
        (keysDistinct_ctxFold [] [] List.Pairwise.nil)

theorem lastWithKey_eq_none (fields : List Field) (k : String)
    (h : lastWithKey fields k = none) : ∀ f ∈ fields, ¬ f.Key = k := by
  induction fields with
  | nil => intro f hf; cases hf
  | cons g gs ih =>
      intro f hf
      have hcons : lastWithKey (g :: gs) k =
          lastWithKeyFrom gs k (if g.Key = k then some g else none) := rfl
      rw [hcons, lastWithKeyFrom_eq_orElse] at h
      by_cases hgk : g.Key = k
      · rw [if_pos hgk] at h
        cases hw : lastWithKey gs k <;> rw [hw] at h <;> simp [Option.orElse] at h
      · rw [if_neg hgk] at h
        have hgs : lastWithKey gs k = none := by
          cases hw : lastWithKey gs k
          · rfl
          · rw [hw] at h; simp [Option.orElse] at h
        rcases List.mem_cons.mp hf with h1 | h1
        · rw [h1]; exact hgk
        · exact ih hgs f h1

theorem extractFields_lookup_any (l : Logger) (ctx : Context) (fields : List Field)
    (k : String) :
    ∃ init : Option Field,
      lookupField (l.extractFields ctx fields) k =
        Option.orElse (lastWithKey fields k) (fun _ => init) := by
  cases ctx with
  | ok m =>
      exact ⟨ctxFieldLookup m k, extractFields_ok_lookup l m fields k⟩
  | error e =>
      refine ⟨none, ?_⟩
      show lookupField (fields.foldl mapInsert (List.foldl _ [] [])) k = _
      rw [lookupField_foldl_mapInsert, lastWithKeyFrom_eq_orElse]
      rfl

theorem infoEnabler_eq_true (l : Logger) (lvl : Int) :
    l.infoEnabler lvl = true ↔ (l.GetLevel ≤ lvl ∧ lvl ≤ infoLevel) := by
  simp only [Logger.infoEnabler, Logger.GetLevel, infoLevel]
  split
  · simp only [Bool.false_eq_true, false_iff, not_and]
    intro h
    omega
  · simp only [decide_eq_true_eq]
    constructor
    · intro h
      exact ⟨by omega, h⟩
    · intro h
      exact h.2

theorem errorEnabler_eq_true (l : Logger) (lvl : Int) :
    l.errorEnabler lvl = true ↔ (l.GetLevel ≤ lvl ∧ warnLevel ≤ lvl) := by
  simp only [Logger.errorEnabler, Logger.GetLevel, warnLevel]
  split
  · simp only [Bool.false_eq_true, false_iff, not_and]
    intro h
    omega
  · simp only [decide_eq_true_eq]
    constructor
    · intro h
      exact ⟨by omega, h⟩
    · intro h
      exact h.2

theorem foldl_toOption_proj {α : Type} (proj : Options → α) (f : OptionTag → Option α)
    (hcompat : ∀ (o : Options) (t : OptionTag), proj (t.toOption o) = (f t).getD (proj o)) :
    ∀ (tags : List OptionTag) (o : Options),
      proj (List.foldl (fun o g => g o) o (tags.map OptionTag.toOption)) =
        lastVal f tags (proj o) := by
  intro tags
  induction tags with
  | nil => intro o; rfl
  | cons t ts ih =>
      intro o
      show proj (List.foldl (fun o g => g o) (t.toOption o) (ts.map OptionTag.toOption)) = _
      rw [ih (t.toOption o), hcompat o t]
      rfl

theorem zapLevel_unrecognized (s : String) (h : s ∉ recognizedTokens) :
    zapLevel s = Except.error ("error level:" ++ s) := by
  rw [zapLevel.eq_def]
  split
  all_goals simp_all [recognizedTokens]

/-- C1: for every severity lvl and every logger with threshold GetLevel, the
info-sink enabler accepts lvl iff threshold ≤ lvl and lvl ≤ info, and the
error-sink enabler accepts lvl iff threshold ≤ lvl and warn ≤ lvl. -/
theorem enablers_accept_iff : ∀ (l : Logger) (lvl : Int),
    (l.infoEnabler lvl = true ↔ (l.GetLevel ≤ lvl ∧ lvl ≤ infoLevel)) ∧
    (l.errorEnabler lvl = true ↔ (l.GetLevel ≤ lvl ∧ warnLevel ≤ lvl)) :=
  fun l lvl => ⟨infoEnabler_eq_true l lvl, errorEnabler_eq_true l lvl⟩

/-- C4: for every severity in the enum, at or above the threshold exactly one
of the two enablers accepts it, and below the threshold neither does. -/
theorem enablers_disjoint_exhaustive : ∀ (l : Logger) (lvl : Int), lvl ∈ levelEnum →
    (l.GetLevel ≤ lvl →
      ((l.infoEnabler lvl = true ∧ l.errorEnabler lvl = false) ∨
       (l.infoEnabler lvl = false ∧ l.errorEnabler lvl = true))) ∧
    (lvl < l.GetLevel → (l.infoEnabler lvl = false ∧ l.errorEnabler lvl = false)) := by
  intro l lvl _
  have hiT : l.infoEnabler lvl = true ↔ (l.GetLevel ≤ lvl ∧ lvl ≤ 0) := by
    simpa [infoLevel] using infoEnabler_eq_true l lvl
  have heT : l.errorEnabler lvl = true ↔ (l.GetLevel ≤ lvl ∧ 1 ≤ lvl) := by
    simpa [warnLevel] using errorEnabler_eq_true l lvl
  constructor
  · intro hge
    by_cases h0 : lvl ≤ 0
    · left
      refine ⟨hiT.mpr ⟨hge, h0⟩, ?_⟩
      rcases hbe : l.errorEnabler lvl with _ | _
      · rfl
      · have := heT.mp hbe
        omega
    · right
      refine ⟨?_, heT.mpr ⟨hge, by omega⟩⟩
      rcases hbi : l.infoEnabler lvl with _ | _
      · rfl
      · have := hiT.mp hbi
        omega
  · intro hlt
    constructor
    · rcases hbi : l.infoEnabler lvl with _ | _
      · rfl
      · have := hiT.mp hbi
        omega
    · rcases hbe : l.errorEnabler lvl with _ | _
      · rfl
      · have := heT.mp hbe
        omega

/-- C4 witness: at severity warn with the default threshold info, exactly one
enabler (the error one) accepts. -/
theorem enablers_disjoint_exhaustive_witness :
    warnLevel ∈ levelEnum ∧ l0.GetLevel ≤ warnLevel ∧
    ((l0.infoEnabler warnLevel = true ∧ l0.errorEnabler warnLevel = false) ∨
     (l0.infoEnabler warnLevel = false ∧ l0.errorEnabler warnLevel = true)) :=
  ⟨by decide, by decide,
    (enablers_disjoint_exhaustive l0 warnLevel (by decide)).1 (by decide)⟩

/-- C2: the field set a per-call method emits is the one built by
extractFields, and looking any field name up in it yields the last explicit
call-site field of that name when one exists, and the contextual binding of
that name otherwise: the union of both sets keyed by name, explicit wins. -/
theorem perCall_field_merge : ∀ (l : Logger) (ctxMap : List (String × Val)) (msg : String)
    (fields : List Field) (k : String),
    (l.Debug (Except.ok ctxMap) msg fields).fields = l.extractFields (Except.ok ctxMap) fields ∧
    (l.Info (Except.ok ctxMap) msg fields).fields = l.extractFields (Except.ok ctxMap) fields ∧
    (l.Warn (Except.ok ctxMap) msg fields).fields = l.extractFields (Except.ok ctxMap) fields ∧
    (l.Error (Except.ok ctxMap) msg fields).fields = l.extractFields (Except.ok ctxMap) fields ∧
    (l.Fatal (Except.ok ctxMap) msg fields).fields = l.extractFields (Except.ok ctxMap) fields ∧
    lookupField (l.extractFields (Except.ok ctxMap) fields) k =
      Option.orElse (lastWithKey fields k) (fun _ => ctxFieldLookup ctxMap k) :=
  fun l ctxMap _ fields k =>
    ⟨rfl, rfl, rfl, rfl, rfl, extractFields_ok_lookup l ctxMap fields k⟩

/-- C10: merged output never repeats a field name, and whenever the explicit
call-site list mentions a name more than once, the lookup of that name in the
merged output is its last explicit occurrence. -/
theorem extractFields_unique_keys : ∀ (l : Logger) (ctx : Context) (fields : List Field),
    KeysDistinct (l.extractFields ctx fields) ∧
    (∀ k : String, 2 ≤ List.countP (fun f => f.Key == k) fields →
      lookupField (l.extractFields ctx fields) k = lastWithKey fields k) := by
  intro l ctx fields
  refine ⟨keysDistinct_extractFields l ctx fields, ?_⟩
  intro k hcount
  obtain ⟨init, hinit⟩ := extractFields_lookup_any l ctx fields k
  rw [hinit]
  have hpos : 0 < List.countP (fun f => f.Key == k) fields := by omega
  obtain ⟨f, hf, hfk⟩ := List.countP_pos_iff.mp hpos
  have hkey : f.Key = k := by simpa using hfk
  cases hw : lastWithKey fields k with
  | none => exact absurd hkey (lastWithKey_eq_none fields k hw f hf)
  | some g => rfl

/-- C10 witness: with the key "a" duplicated among the call-site fields, the
merged record holds its last occurrence. -/
theorem extractFields_unique_keys_witness :
    2 ≤ List.countP (fun f => f.Key == "a") fieldsDup ∧
    lookupField (l0.extractFields ctx0 fieldsDup) "a" = lastWithKey fieldsDup "a" :=
  ⟨by decide, (extractFields_unique_keys l0 ctx0 fieldsDup).2 "a" (by decide)⟩

/-- C9: when the context conversion fails, every per-call method still emits
its record, carrying exactly the merge of the explicit call-site fields, the
same fields an empty contextual map would give; no error is returned. -/
theorem convFailure_swallowed : ∀ (l : Logger) (e : ConvErr) (msg : String)
    (fields : List Field),
    l.extractFields (Except.error e) fields = l.extractFields (Except.ok []) fields ∧
    l.Debug (Except.error e) msg fields =
      { msg := msg, sev := debugLevel, fields := List.foldl mapInsert [] fields } ∧
    l.Info (Except.error e) msg fields =
      { msg := msg, sev := infoLevel, fields := List.foldl mapInsert [] fields } ∧
    l.Warn (Except.error e) msg fields =
      { msg := msg, sev := warnLevel, fields := List.foldl mapInsert [] fields } ∧
    l.Error (Except.error e) msg fields =
      { msg := msg, sev := errorLevel, fields := List.foldl mapInsert [] fields } ∧
    l.Fatal (Except.error e) msg fields =
      { msg := msg, sev := fatalLevel, fields := List.foldl mapInsert [] fields } :=
  fun _ _ _ _ => ⟨rfl, rfl, rfl, rfl, rfl, rfl⟩

/-- C3 counterexample: the mixed-casing token "Debug" is rejected by the
parser, although the claim says tokens match in any letter casing. -/
theorem newLogger_mixed_case_rejected :
    NewLogger cfg0 [WithLevel "Debug"] = Except.error ("error level:" ++ "Debug") := rfl

/-- C3 (amended): for every token in all-lowercase or all-uppercase form,
plus the empty string, NewLogger succeeds and GetLevel returns the severity
the token names. -/
theorem newLogger_recognized_tokens : ∀ (cfg : Config) (s : String) (lv : Int),
    (s, lv) ∈ levelTokenTable →
    ∃ l : Logger, NewLogger cfg [WithLevel s] = Except.ok l ∧ l.GetLevel = lv := by
  intro cfg s lv h
  fin_cases h <;> exact ⟨_, rfl, rfl⟩

/-- C3 witness: the token "debug" is recognized and yields threshold debug. -/
theorem newLogger_recognized_tokens_witness :
    ("debug", debugLevel) ∈ levelTokenTable ∧
    ∃ l : Logger, NewLogger cfg0 [WithLevel "debug"] = Except.ok l ∧ l.GetLevel = debugLevel :=
  ⟨by decide, newLogger_recognized_tokens cfg0 "debug" debugLevel (by decide)⟩

/-- C5: for every unrecognized level token, NewLogger fails with an error
carrying the offending string and produces no logger. -/
theorem newLogger_unrecognized_fails : ∀ (cfg : Config) (s : String),
    s ∉ recognizedTokens →
    NewLogger cfg [WithLevel s] = Except.error ("error level:" ++ s) := by
  intro cfg s h
  have hz := zapLevel_unrecognized s h
  simp only [NewLogger]
  rw [show (effectiveOptions [WithLevel s]).level = s from rfl, hz]

/-- C5 witness: the token "verbose" is rejected with the offending string in
the error. -/
theorem newLogger_unrecognized_fails_witness :
    "verbose" ∉ recognizedTokens ∧
    NewLogger cfg0 [WithLevel "verbose"] = Except.error ("error level:" ++ "verbose") :=
  ⟨by decide, newLogger_unrecognized_fails cfg0 "verbose" (by decide)⟩

/-- C6: options apply to the defaults in call order and, per configuration
field, the last option writing the field determines its effective value,
with the documented default when no option writes it. -/
theorem options_last_write_wins : ∀ (tags : List OptionTag),
    (effectiveOptions (tags.map OptionTag.toOption)).level =
        lastVal OptionTag.setsLevel tags "info" ∧
    (effectiveOptions (tags.map OptionTag.toOption)).callSkip =
        lastVal OptionTag.setsCallSkip tags 1 ∧
    (effectiveOptions (tags.map OptionTag.toOption)).module =
        lastVal OptionTag.setsModule tags "default" ∧
    (effectiveOptions (tags.map OptionTag.toOption)).serviceName =
        lastVal OptionTag.setsServiceName tags "default" ∧
    (effectiveOptions (tags.map OptionTag.toOption)).infoWriter =
        lastVal OptionTag.setsInfoWriter tags Writer.stdout ∧
    (effectiveOptions (tags.map OptionTag.toOption)).errorWriter =
        lastVal OptionTag.setsErrorWriter tags Writer.stdout := by
  intro tags
  refine ⟨?_, ?_, ?_, ?_, ?_, ?_⟩
  · exact foldl_toOption_proj Options.level OptionTag.setsLevel
      (fun o t => by cases t <;> rfl) tags defaultOptions
  · exact foldl_toOption_proj Options.callSkip OptionTag.setsCallSkip
      (fun o t => by cases t <;> rfl) tags defaultOptions
  · exact foldl_toOption_proj Options.module OptionTag.setsModule
      (fun o t => by cases t <;> rfl) tags defaultOptions
  · exact foldl_toOption_proj Options.serviceName OptionTag.setsServiceName
      (fun o t => by cases t <;> rfl) tags defaultOptions
  · exact foldl_toOption_proj Options.infoWriter OptionTag.setsInfoWriter
      (fun o t => by cases t <;> rfl) tags defaultOptions
  · exact foldl_toOption_proj Options.errorWriter OptionTag.setsErrorWriter
      (fun o t => by cases t <;> rfl) tags defaultOptions

/-- C7: NewLogger never reads its Config argument, so two arbitrary
configurations paired with the same options give equal results. -/
theorem newLogger_ignores_config : ∀ (cfg₁ cfg₂ : Config) (options : List (Options → Options)),
    NewLogger cfg₁ options = NewLogger cfg₂ options :=
  fun _ _ _ => rfl

/-- C8: the duration encoder computes the integer quotient of nanoseconds by
1000000 with the fractional part truncated: its magnitude is the floor of
the magnitude quotient and its sign is the sign of the input. -/
theorem encodeDuration_truncates : ∀ d : Int,
    encodeDuration d = d.sign * ((d.natAbs / 1000000 : Nat) : Int) := by
  intro d
  rcases d with (_ | m) | m
  · rfl
  · show (Int.ofNat ((m + 1) / 1000000)) = _ * _
    rw [Int.sign, Int.natAbs]
    rw [one_mul]
    rfl
  · show -(Int.ofNat ((m + 1) / 1000000)) = _ * _
    rw [Int.sign, Int.natAbs]
    rw [neg_one_mul]
    rfl

end GinLogger
